import Mathlib

/-!
# Verification of the BigARTM training orchestrator (`artm::core::MasterComponent`)

Shallow embedding of `src/artm/core/master_component.cc`: the matrix registry,
the model-algebra operations (Merge, Import, Export, ProcessBatches), the batch
iterators and the offline / async-online training schedules, together with the
theorems that settle the frozen specification claims.
-/

namespace Artm

/-- A token of the phi matrix: (keyword, class_id); equality over both fields. -/
structure Token where
  keyword : String
  class_id : String
deriving DecidableEq, Repr

/-- A dense phi (or counter) matrix: ordered topic axis, ordered token rows. -/
structure PhiM where
  name : String
  topic_name : List String
  tokens : List (Token × List ℚ)
deriving DecidableEq, Repr

/-- The name → matrix registry owned by the `Instance`. -/
abbrev Registry := List (String × PhiM)

/-- `Instance::GetPhiMatrix`: look a matrix up by name. -/
def rget (reg : Registry) (n : String) : Option PhiM :=
  (reg.find? (fun p => p.1 == n)).map (fun p => p.2)

/-- `Instance::SetPhiMatrix`: atomic replace of the slot named `n`. -/
def rset (reg : Registry) (n : String) (m : PhiM) : Registry :=
  (n, m) :: reg.filter (fun p => !(p.1 == n))

/-- The error kinds thrown by the master component. -/
inductive ArtmError
  | invalidOperation (msg : String)
  | corruptedMessage (msg : String)
  | diskRead (msg : String)
  | diskWrite (msg : String)
  | missingModel (msg : String)
deriving DecidableEq, Repr

/-- Modelled from the spec: `DensePhiMatrix::Reshape` lives outside `src/`;
per the spec it "creates a fresh zeroed N matrix reshaped to Φ", i.e. it copies
the token axis of the source matrix and zero-fills every row. -/
def reshapeFrom (n : String) (p : PhiM) : PhiM :=
  { name := n
    topic_name := p.topic_name
    tokens := p.tokens.map (fun t => (t.1, t.2.map (fun _ => (0 : ℚ)))) }

/-- Elementwise addition of two rows, missing entries read as zero. -/
def addRow : List ℚ → List ℚ → List ℚ
  | [], r => r
  | l, [] => l
  | a :: l, b :: r => (a + b) :: addRow l r

/-- Modelled from the spec: `PhiMatrixOperations::ApplyTopicModelOperation`
lives outside `src/`; per the spec ("Merge linearity", import chunks "apply
additive ops") it performs `target += weight · source` row by row, adding
tokens that the target does not yet hold. -/
def applyTopicModelOperation (src : List (Token × List ℚ)) (w : ℚ) (target : PhiM) : PhiM :=
  src.foldl (fun tgt tr =>
    { tgt with tokens :=
        if (tgt.tokens.find? (fun p => p.1 == tr.1)).isSome then
          tgt.tokens.map (fun p =>
            if p.1 == tr.1 then (p.1, addRow p.2 (tr.2.map (fun x => w * x))) else p)
        else tgt.tokens ++ [(tr.1, tr.2.map (fun x => w * x))] }) target

/-! ## MasterComponent::MergeModel (master_component.cc, lines 546-588) -/

/-- The fields of `MergeModelArgs` that `MergeModel` reads. -/
structure MergeModelArgs where
  nwt_source_name : List String
  source_weight : List ℚ
  nwt_target_name : String
  topic_name : List String
deriving DecidableEq, Repr

/-- One iteration of the `MergeModel` source loop: a missing source is skipped
(with a warning); the target is allocated lazily at the first present source,
its topic axis taken from the caller override when supplied, else from that
first source. -/
def mergeLoopStep (reg : Registry) (args : MergeModelArgs)
    (acc : Option PhiM) (sw : String × ℚ) : Option PhiM :=
  match rget reg sw.1 with
  | none => acc
  | some src =>
    let tgt := match acc with
      | some t => t
      | none =>
        { name := args.nwt_target_name
          topic_name := if args.topic_name.length ≠ 0 then args.topic_name else src.topic_name
          tokens := [] }
    if src.tokens.length > 0 then some (applyTopicModelOperation src.tokens sw.2 tgt)
    else some tgt

/-- `MasterComponent::MergeModel`: validates the source/weight lists, folds the
present sources into the target, registers the target. -/
def mergeModel (args : MergeModelArgs) (reg : Registry) : Except ArtmError Registry :=
  if args.nwt_source_name.length = 0 then
    .error (.invalidOperation "MergeModelArgs.nwt_source_name must not be empty")
  else if args.nwt_source_name.length ≠ args.source_weight.length then
    .error (.invalidOperation
      "MergeModelArgs.nwt_source_name_size() != MergeModelArgs.source_weight_size()")
  else
    match (args.nwt_source_name.zip args.source_weight).foldl (mergeLoopStep reg args) none with
    | none => .error (.invalidOperation "ArtmMergeModel() have not found any models to merge.")
    | some tgt => .ok (rset reg args.nwt_target_name tgt)

/-! ## MasterComponent::ImportModel (master_component.cc, lines 250-301) -/

/-- The payload of one serialized topic-model chunk, as `ImportModel` sees it
after `ParseFromArray`. -/
structure TopicModelMsg where
  topic_name : List String
  tokens : List (Token × List ℚ)
deriving DecidableEq, Repr

/-- One length-prefixed chunk of an import stream. `parsed = none` models a
chunk whose bytes `ParseFromArray` rejects (e.g. a mid-chunk truncation). -/
structure ImportChunk where
  chunkLength : Int
  parsed : Option TopicModelMsg
deriving DecidableEq, Repr

/-- The chunk-replay loop of `ImportModel`: a non-positive length prefix or an
unparsable chunk raises `CorruptedMessage`; the first chunk allocates the
target (its topic axis fixes `topic_name`), every chunk is applied additively
with weight 1. -/
def importLoop (modelName fileName : String) :
    List ImportChunk → Option PhiM → Except ArtmError (Option PhiM)
  | [], tgt => .ok tgt
  | c :: cs, tgt =>
    if c.chunkLength ≤ 0 then
      .error (.corruptedMessage ("Unable to read from " ++ fileName))
    else
      match c.parsed with
      | none => .error (.corruptedMessage ("Unable to read from " ++ fileName))
      | some tm =>
        let t := match tgt with
          | some t => t
          | none => { name := modelName, topic_name := tm.topic_name, tokens := [] }
        importLoop modelName fileName cs (some (applyTopicModelOperation tm.tokens 1 t))

/-- `MasterComponent::ImportModel`: version check, chunk replay, and — only
after every chunk succeeded — a single `SetPhiMatrix` on the registry.  The
registry is threaded through so that the state at the moment an error is
raised stays observable: the second component is the raised error, if any. -/
def importModel (version : Int) (chunks : List ImportChunk)
    (modelName fileName : String) (reg : Registry) : Registry × Option ArtmError :=
  if version ≠ 0 then
    (reg, some (.diskRead "Unsupported fromat version"))
  else
    match importLoop modelName fileName chunks none with
    | .error e => (reg, some e)
    | .ok none => (reg, some (.corruptedMessage ("Unable to read from " ++ fileName)))
    | .ok (some tgt) => (rset reg modelName tgt, none)

/-! ## MasterComponent::ExportModel chunking (master_component.cc, lines 214-243) -/

/-- The token loop of `ExportModel`: tokens are appended to the pending
chunk; the chunk is flushed when the last token has been appended or when the
pending chunk has reached `tokensPerChunk` tokens. -/
def exportChunkLoop (tokensPerChunk : ℕ) : List Token → List Token → List (List Token)
  | _, [] => []
  | acc, t :: ts =>
    let acc' := acc ++ [t]
    if ts = [] ∨ tokensPerChunk ≤ acc'.length then acc' :: exportChunkLoop tokensPerChunk [] ts
    else exportChunkLoop tokensPerChunk acc' ts

/-- The chunk split performed by `ExportModel` on a matrix with the given
token list and `topicSize` topics:
`tokens_per_chunk = min(token_size, 100*1024*1024 / topic_size)`. -/
def exportChunks (tokens : List Token) (topicSize : ℕ) : List (List Token) :=
  exportChunkLoop (min tokens.length (100 * 1024 * 1024 / topicSize)) [] tokens

/-! ## MasterComponent::RequestProcessBatchesImpl (master_component.cc, lines 425-544) -/

/-- `ProcessBatchesArgs.theta_matrix_type`. -/
inductive ThetaMatrixType
  | none_ | cache | dense | sparse | densePtdw | sparsePtdw
deriving DecidableEq, Repr

/-- The fields of `ProcessBatchesArgs` the orchestrator reads.  Inline batches
are represented by their ids. -/
structure ProcessBatchesArgs where
  pwt_source_name : String
  nwt_target_name : Option String
  theta_matrix_type : ThetaMatrixType
  batch_filename : List String
  batch : List String
  batch_weight : List ℚ
deriving DecidableEq, Repr

/-- A default-initialized `ProcessBatchesArgs` message. -/
def emptyPBArgs : ProcessBatchesArgs :=
  { pwt_source_name := ""
    nwt_target_name := none
    theta_matrix_type := .none_
    batch_filename := []
    batch := []
    batch_weight := [] }

/-- The registry mutations and task enqueues `RequestProcessBatchesImpl`
performs, in program order. -/
inductive PBEvent
  | setPhi (n : String)
  | enqueue (taskId : ℕ)
deriving DecidableEq, Repr

/-- What a completed (returned) `RequestProcessBatchesImpl` call exposes:
its event trace, the task ids it enqueued (in enqueue order) and the batch
manager's outstanding set at the moment of return. -/
structure PBReturn where
  trace : List PBEvent
  enqueued : List ℕ
  outstanding : List ℕ
deriving DecidableEq, Repr

/-- Outcome of a `RequestProcessBatchesImpl` call: a normal return, a thrown
error, or (sync mode only) a poll loop that never observes a drained batch
manager under the given worker schedule. -/
inductive PBOutcome
  | ok (r : PBReturn)
  | err (e : ArtmError)
  | hang
deriving DecidableEq, Repr

/-- The synchronous wait loop
`while (!batch_manager->IsEverythingProcessed()) sleep(kIdleLoopFrequency);`.
Each poll that still sees outstanding tasks consumes the next worker
completion (`BatchManager::Callback` → `remove`) from `schedule`; the loop
exits with the final (empty) outstanding set, or hangs (`none`) if the
schedule is exhausted first. -/
def awaitDrain : List ℕ → List ℕ → Option (List ℕ)
  | out, [] => if out.isEmpty then some out else none
  | out, r :: rs => if out.isEmpty then some out else awaitDrain (out.erase r) rs

/-- `MasterComponent::RequestProcessBatchesImpl`.  In program order:
the zero-processor check, the `pwt_source` lookup, the `nwt_target` block
(same-name check, then reshape + `SetPhiMatrix`), the async/theta-type check,
task enqueue (batches by filename, then inline batches; one fresh task id
each), then either the immediate async return or the synchronous drain.
The registry is threaded through so that mutations made before a thrown
error stay observable. -/
def requestProcessBatchesImpl (args : ProcessBatchesArgs) (async : Bool)
    (processorSize : ℕ) (schedule : List ℕ) (reg : Registry) : Registry × PBOutcome :=
  if processorSize = 0 then
    (reg, .err (.invalidOperation "Can't process batches because there are no processors."))
  else
    match rget reg args.pwt_source_name with
    | none => (reg, .err (.missingModel args.pwt_source_name))
    | some p_wt =>
      let nwtStep : Except ArtmError (Registry × List PBEvent) :=
        match args.nwt_target_name with
        | none => .ok (reg, [])
        | some tn =>
          if tn = args.pwt_source_name then
            .error (.invalidOperation
              "ProcessBatchesArgs.pwt_source_name == ProcessBatchesArgs.nwt_target_name")
          else .ok (rset reg tn (reshapeFrom tn p_wt), [.setPhi tn])
      match nwtStep with
      | .error e => (reg, .err e)
      | .ok (reg1, tr1) =>
        if async = true ∧ args.theta_matrix_type ≠ ThetaMatrixType.none_ then
          (reg1, .err (.invalidOperation
            "ArtmAsyncProcessBatches require ProcessBatchesArgs.theta_matrix_type to be set to None"))
        else
          let ids := List.range (args.batch_filename.length + args.batch.length)
          let tr := tr1 ++ ids.map PBEvent.enqueue
          if async then (reg1, .ok ⟨tr, ids, ids⟩)
          else
            match awaitDrain ids schedule with
            | none => (reg1, .hang)
            | some rest => (reg1, .ok ⟨tr, ids, rest⟩)

/-! ## Batch iterators (master_component.cc, lines 717-794) -/

/-- `OnlineBatchesIterator`: parallel arrays plus the cursor into
`update_after`. -/
structure OnlineIter where
  batch_filename : List String
  batch_weight : List ℚ
  update_after : List ℕ
  apply_weight : List ℚ
  decay_weight : List ℚ
  current : ℕ
deriving DecidableEq, Repr

/-- `OnlineBatchesIterator::more`: `current_ < update_after_.size()`. -/
def OnlineIter.more (it : OnlineIter) : Bool :=
  it.current < it.update_after.length

/-- `OnlineBatchesIterator::move`: clear the args' batch lists; when the
cursor is in range, copy the batches indexed in
`[update_after[current-1] (0 when current=0), update_after[current])` into the
args and advance the cursor. -/
def OnlineIter.move (it : OnlineIter) (args : ProcessBatchesArgs) :
    ProcessBatchesArgs × OnlineIter :=
  let args := { args with batch_filename := [], batch_weight := [] }
  if it.current < it.update_after.length then
    let lo := if it.current = 0 then 0 else it.update_after.getD (it.current - 1) 0
    let hi := it.update_after.getD it.current 0
    ({ args with
        batch_filename := (List.range' lo (hi - lo)).map (fun i => it.batch_filename.getD i "")
        batch_weight := (List.range' lo (hi - lo)).map (fun i => it.batch_weight.getD i 0) },
     { it with current := it.current + 1 })
  else (args, it)

/-- Lower boundary of online update group `k`. -/
def groupFirst (it : OnlineIter) (k : ℕ) : ℕ :=
  if k = 0 then 0 else it.update_after.getD (k - 1) 0

/-- Upper boundary of online update group `k`. -/
def groupLast (it : OnlineIter) (k : ℕ) : ℕ :=
  it.update_after.getD k 0

/-- The batch filenames of online update group `k`. -/
def groupBatches (it : OnlineIter) (k : ℕ) : List String :=
  (List.range' (groupFirst it k) (groupLast it k - groupFirst it k)).map
    (fun i => it.batch_filename.getD i "")

/-! ## ArtmExecutor (master_component.cc, lines 812-1018)

The executor's helpers (`ProcessBatches`, `AsyncProcessBatches`, `Await`,
`Merge`, `Dispose`, `Regularize`, `Normalize`, `StoreScores`) are modelled as
emitted events, so that the two training schedules become event traces whose
sequencing and arguments can be checked. -/

/-- One executor-level operation. -/
inductive Event
  | clearScoreCache
  | newScoreManager
  | processSync (pwt nwt : String) (batches : List String)
  | asyncProcess (opId : ℕ) (pwt nwt : String) (batches : List String)
  | await (opId : ℕ)
  | merge (target : String) (sources : List String) (weights : List ℚ)
  | dispose (n : String)
  | regularize (pwt nwt rwt : String)
  | normalize (pwt nwt rwt : String)
  | storeScores
deriving DecidableEq, Repr

/-- `StringIndex`: `prefix_ + lexical_cast<string>(i_)`. -/
def nwtHatName (k : ℕ) : String := "nwt_hat" ++ Nat.repr k

/-- The `pwt`-prefixed intermediate names of the async schedule. -/
def pwtIdxName (k : ℕ) : String := "pwt" ++ Nat.repr k

/-- `ArtmExecutor::ProcessBatches`: back-fill source/target names into the
member args, move the iterator into them (an offline move copies both batch
lists wholesale), run the synchronous op, then clear `batch_filename` (and
only it). -/
def execProcessBatchesOffline (pwt nwt : String) (bf : List String) (bw : List ℚ)
    (st : ProcessBatchesArgs) : Event × ProcessBatchesArgs :=
  let a := { st with pwt_source_name := pwt, nwt_target_name := some nwt,
                     batch_filename := bf, batch_weight := bw }
  (.processSync pwt nwt a.batch_filename, { a with batch_filename := [] })

/-- The per-pass loop of `ArtmExecutor::ExecuteOfflineAlgorithm`, with the
member `process_batches_args_` threaded through the passes. -/
def offlinePassLoop (pwt nwt : String) (bf : List String) (bw : List ℚ) :
    ℕ → ProcessBatchesArgs → List Event
  | 0, _ => []
  | p + 1, st =>
    let pe := execProcessBatchesOffline pwt nwt bf bw st
    .newScoreManager :: pe.1 ::
    .regularize pwt nwt "rwt" :: .normalize pwt nwt "rwt" :: .storeScores ::
    offlinePassLoop pwt nwt bf bw p pe.2

/-- `ArtmExecutor::ExecuteOfflineAlgorithm`: clear the score cache, run the
passes, dispose `rwt`. -/
def executeOfflineAlgorithm (pwt nwt : String) (passes : ℕ)
    (bf : List String) (bw : List ℚ) (st : ProcessBatchesArgs) : List Event :=
  .clearScoreCache :: (offlinePassLoop pwt nwt bf bw passes st ++ [.dispose "rwt"])

/-- The `while (true)` loop of `ArtmExecutor::ExecuteAsyncOnlineAlgorithm`.
State mirrors the C++ locals: the iterator, `pwt_active`, `pwt_index`,
`nwt_hat_index`, `op_id` and `async_.size()`.  Launching the next op
(`AsyncProcessBatches`) moves the iterator and hands out `async_.size()` as
the new op id.  The fuel argument only bounds the recursion; the loop breaks
by itself on the last step. -/
def asyncLoop (pwtName nwtName : String) :
    ℕ → OnlineIter → String → ℕ → ℕ → ℕ → ℕ → List Event
  | 0, _, _, _, _, _, _ => []
  | fuel + 1, it, pwtActive, pwtIdx, nwtHatIdx, opId, asyncCount =>
    let pwtIdx' := pwtIdx + 1
    let nwtHatIdx' := nwtHatIdx + 1
    let aw := it.apply_weight.getD opId 0
    let dw := it.decay_weight.getD opId 0
    if it.more then
      let mv := it.move emptyPBArgs
      let newPwtActive := pwtIdxName (pwtIdx' + 1)
      .asyncProcess asyncCount pwtActive (nwtHatName nwtHatIdx') mv.1.batch_filename ::
      .await opId ::
      .merge nwtName [nwtName, nwtHatName (nwtHatIdx' - 1)] [dw, aw] ::
      .dispose (nwtHatName (nwtHatIdx' - 1)) ::
      .regularize pwtActive nwtName "rwt" ::
      .normalize newPwtActive nwtName "rwt" ::
      .dispose (pwtIdxName (pwtIdx' - 1)) ::
      asyncLoop pwtName nwtName fuel mv.2 newPwtActive pwtIdx' nwtHatIdx' asyncCount (asyncCount + 1)
    else
      [.await opId,
       .merge nwtName [nwtName, nwtHatName (nwtHatIdx' - 1)] [dw, aw],
       .dispose (nwtHatName (nwtHatIdx' - 1)),
       .regularize pwtActive nwtName "rwt",
       .normalize pwtName nwtName "rwt",
       .dispose (pwtIdxName (pwtIdx' - 1)),
       .dispose (pwtIdxName pwtIdx')]

/-- `ArtmExecutor::ExecuteAsyncOnlineAlgorithm`: clear the score cache,
launch op 0 against `pwt` into `nwt_hat0`, then run the pipelined loop. -/
def executeAsyncOnlineAlgorithm (pwtName nwtName : String) (it : OnlineIter) : List Event :=
  let mv := it.move emptyPBArgs
  .clearScoreCache ::
  .asyncProcess 0 pwtName (nwtHatName 0) mv.1.batch_filename ::
  asyncLoop pwtName nwtName it.update_after.length mv.2 pwtName 0 0 0 1

/-- The source Φ name fed to async op `k`: ops 0 and 1 read the initial `pwt`;
op `k ≥ 2` reads the intermediate `pwt<k>` produced by step `k - 2`. -/
def asyncSrcName (pwtName : String) (k : ℕ) : String :=
  if k ≤ 1 then pwtName else pwtIdxName k

/-- `pwt_active` at entry of the loop iteration that merges op `k`. -/
def activeName (pwtName : String) (k : ℕ) : String :=
  if k = 0 then pwtName else pwtIdxName (k + 1)

/-- Trace of a non-last loop iteration merging op `j` (and launching op
`j + 1`). -/
def nonLastBlock (pwtName nwtName : String) (it : OnlineIter) (j : ℕ) : List Event :=
  [.asyncProcess (j + 1) (activeName pwtName j) (nwtHatName (j + 1)) (groupBatches it (j + 1)),
   .await j,
   .merge nwtName [nwtName, nwtHatName j] [it.decay_weight.getD j 0, it.apply_weight.getD j 0],
   .dispose (nwtHatName j),
   .regularize (activeName pwtName j) nwtName "rwt",
   .normalize (activeName pwtName (j + 1)) nwtName "rwt",
   .dispose (pwtIdxName j)]

/-- Trace of the last loop iteration, merging op `j`. -/
def lastBlock (pwtName nwtName : String) (it : OnlineIter) (j : ℕ) : List Event :=
  [.await j,
   .merge nwtName [nwtName, nwtHatName j] [it.decay_weight.getD j 0, it.apply_weight.getD j 0],
   .dispose (nwtHatName j),
   .regularize (activeName pwtName j) nwtName "rwt",
   .normalize pwtName nwtName "rwt",
   .dispose (pwtIdxName j),
   .dispose (pwtIdxName (j + 1))]

/-- Recognizer for `Event.merge`. -/
def isMergeEvent : Event → Bool
  | .merge _ _ _ => true
  | _ => false

/-- Recognizer for `Event.asyncProcess`. -/
def isAsyncProcessEvent : Event → Bool
  | .asyncProcess _ _ _ _ => true
  | _ => false

/-! ## Concrete instances used by the witness theorems -/

/-- A one-token Φ matrix. -/
def phiW : PhiM :=
  { name := "pwt", topic_name := ["topic0"], tokens := [(⟨"w", "cid"⟩, [1])] }

/-- A registry holding `phiW` under `"pwt"`. -/
def regW : Registry := [("pwt", phiW)]

/-- A two-batch synchronous ProcessBatches request. -/
def argsW : ProcessBatchesArgs :=
  { pwt_source_name := "pwt", nwt_target_name := some "nwt", theta_matrix_type := .none_
    batch_filename := ["b1", "b2"], batch := [], batch_weight := [1, 1] }

/-- The return value of the synchronous witness call. -/
def pbRetW : PBReturn :=
  { trace := [.setPhi "nwt", .enqueue 0, .enqueue 1], enqueued := [0, 1], outstanding := [] }

/-- Scenario S2 of the spec: four batches in two online groups. -/
def itW : OnlineIter :=
  { batch_filename := ["b1", "b2", "b3", "b4"], batch_weight := [1, 1, 1, 1]
    update_after := [2, 4], apply_weight := [1/2, 1/2], decay_weight := [1/2, 1], current := 0 }

/-- A two-source merge request with one missing source. -/
def argsMergeW : MergeModelArgs :=
  { nwt_source_name := ["pwt", "missing"], source_weight := [1, 2]
    nwt_target_name := "tgt", topic_name := [] }

/-- An import chunk with a non-positive length prefix. -/
def badChunkW : ImportChunk := { chunkLength := 0, parsed := some { topic_name := ["topic0"], tokens := [] } }

/-- The witness request with a dense Θ return requested. -/
def argsW10 : ProcessBatchesArgs := { argsW with theta_matrix_type := .dense }

/-! ## Helper lemmas -/

/-- Reading `l.getD` along `range' a n` is the `[a, a+n)` slice of `l`. -/
theorem range'_map_getD {α : Type} (l : List α) (d : α) :
    ∀ (n a : ℕ), a + n ≤ l.length →
      (List.range' a n).map (fun i => l.getD i d) = (l.drop a).take n := by
  intro n
  induction n with
  | zero => intro a _; simp
  | succ n ih =>
    intro a h
    have ha : a < l.length := by omega
    rw [List.range'_succ, List.map_cons, List.drop_eq_getElem_cons ha, List.take_succ_cons,
      List.getD_eq_getElem l d ha, ih (a + 1) (by omega)]

/-- `exportChunkLoop` emits every token exactly once, in order. -/
theorem exportChunkLoop_flatten (tpc : ℕ) :
    ∀ (ts acc : List Token), ts ≠ [] →
      (exportChunkLoop tpc acc ts).flatten = acc ++ ts := by
  intro ts
  induction ts with
  | nil => intro acc h; exact absurd rfl h
  | cons t ts ih =>
    intro acc _
    by_cases hf : ts = [] ∨ tpc ≤ (acc ++ [t]).length
    · rw [exportChunkLoop, if_pos hf, List.flatten_cons]
      rcases Decidable.em (ts = []) with h1 | h1
      · subst h1; simp [exportChunkLoop]
      · rw [ih [] h1]; simp
    · push_neg at hf
      rw [exportChunkLoop, if_neg (by push_neg; exact hf), ih (acc ++ [t]) hf.1]
      simp

/-- Every chunk `exportChunkLoop` emits has at most `max tpc (acc.length + 1)`
tokens. -/
theorem exportChunkLoop_size (tpc : ℕ) :
    ∀ (ts acc : List Token), ∀ c ∈ exportChunkLoop tpc acc ts,
      c.length ≤ max tpc (acc.length + 1) := by
  intro ts
  induction ts with
  | nil => intro acc c hc; simp [exportChunkLoop] at hc
  | cons t ts ih =>
    intro acc c hc
    by_cases hf : ts = [] ∨ tpc ≤ (acc ++ [t]).length
    · rw [exportChunkLoop, if_pos hf] at hc
      rcases List.mem_cons.mp hc with h | h
      · subst h; simp
      · have := ih [] c h
        simp at this ⊢
        omega
    · rw [exportChunkLoop, if_neg hf] at hc
      push_neg at hf
      have := ih (acc ++ [t]) c hc
      simp at this hf ⊢
      omega

/-! ## Claim C7: ExportModel chunking -/

/-- C7 counterexample: the claimed bound
`min(token_size, 100*1024*1024 / topic_size)` fails for a model with one token
and `topic_size = 100*1024*1024 + 1`: the bound is then `min 1 0 = 0`, but the
export loop always flushes at least one token per chunk. -/
theorem exportChunks_min_bound_counterexample :
    ¬ (∀ c ∈ exportChunks [⟨"a", "c"⟩] (100 * 1024 * 1024 + 1),
        c.length ≤ min ([(⟨"a", "c"⟩ : Token)] : List Token).length
          (100 * 1024 * 1024 / (100 * 1024 * 1024 + 1))) := by
  decide

/-- C7 (amended): every chunk `ExportModel` writes contains at most
`max 1 (min token_size (100*1024*1024 / topic_size))` tokens, and every token
of the model appears in exactly one chunk (the chunks concatenate back to the
token list). -/
theorem exportChunks_spec (tokens : List Token) (topicSize : ℕ) (h : tokens ≠ []) :
    (exportChunks tokens topicSize).flatten = tokens ∧
    ∀ c ∈ exportChunks tokens topicSize,
      c.length ≤ max 1 (min tokens.length (100 * 1024 * 1024 / topicSize)) := by
  constructor
  · exact exportChunkLoop_flatten _ tokens [] h
  · intro c hc
    have := exportChunkLoop_size (min tokens.length (100 * 1024 * 1024 / topicSize)) tokens [] c hc
    simp only [List.length_nil, Nat.zero_add] at this
    omega

/-- C7 witness: the amended bound evaluated on a two-token model with
`topic_size = 50 MiB` (two tokens per chunk). -/
theorem exportChunks_spec_witness :
    ([⟨"a", "c"⟩, ⟨"b", "c"⟩] : List Token) ≠ [] ∧
    ((exportChunks [⟨"a", "c"⟩, ⟨"b", "c"⟩] 52428800).flatten = [⟨"a", "c"⟩, ⟨"b", "c"⟩] ∧
      ∀ c ∈ exportChunks [⟨"a", "c"⟩, ⟨"b", "c"⟩] 52428800,
        c.length ≤ max 1 (min ([(⟨"a", "c"⟩ : Token), ⟨"b", "c"⟩] : List Token).length
          (100 * 1024 * 1024 / 52428800))) :=
  ⟨by decide, exportChunks_spec [⟨"a", "c"⟩, ⟨"b", "c"⟩] 52428800 (by decide)⟩

/-! ## Claim C3: FitOffline phase sequencing -/

/-- The per-pass loop emits the same five-event block each pass, independent
of the threaded `process_batches_args_` state. -/
theorem offlinePassLoop_eq (pwt nwt : String) (bf : List String) (bw : List ℚ) :
    ∀ (passes : ℕ) (st : ProcessBatchesArgs),
      offlinePassLoop pwt nwt bf bw passes st =
        (List.replicate passes
          [Event.newScoreManager, Event.processSync pwt nwt bf,
           Event.regularize pwt nwt "rwt", Event.normalize pwt nwt "rwt",
           Event.storeScores]).flatten := by
  intro passes
  induction passes with
  | zero => intro st; simp [offlinePassLoop]
  | succ p ih =>
    intro st
    rw [offlinePassLoop, List.replicate_succ, List.flatten_cons, ih]
    rfl

/-- C3: `ExecuteOfflineAlgorithm(passes, batch_list)` first clears the score
cache, then for every pass performs, in order: a synchronous ProcessBatches
into `nwt` from `pwt` over all batches with a fresh score manager, then
Regularize(`pwt`, `nwt`, `rwt`), then Normalize(`pwt`, `nwt`, `rwt`), then a
score snapshot into the tracker; after the last pass it disposes `rwt`. -/
theorem fitOffline_phase_order (pwt nwt : String) (passes : ℕ)
    (bf : List String) (bw : List ℚ) (st : ProcessBatchesArgs) :
    executeOfflineAlgorithm pwt nwt passes bf bw st =
      Event.clearScoreCache ::
      ((List.replicate passes
          [Event.newScoreManager, Event.processSync pwt nwt bf,
           Event.regularize pwt nwt "rwt", Event.normalize pwt nwt "rwt",
           Event.storeScores]).flatten ++ [Event.dispose "rwt"]) := by
  rw [executeOfflineAlgorithm, offlinePassLoop_eq]

/-! ## Claim C4: the online batch iterator -/

/-- C4: `more()` holds exactly when the cursor is strictly below
`len(update_after)`; `move(args)` clears the args' batch lists and, when the
cursor is in range, copies exactly the (filename, weight) pairs with indices
in `[update_after[cursor-1] (0 when cursor = 0), update_after[cursor])` into
the args in order and advances the cursor by one. -/
theorem onlineIterator_more_and_move (it : OnlineIter) (args : ProcessBatchesArgs) :
    (it.more = true ↔ it.current < it.update_after.length) ∧
    (it.current < it.update_after.length →
      groupLast it it.current ≤ it.batch_filename.length →
      groupLast it it.current ≤ it.batch_weight.length →
      (it.move args).1.batch_filename =
        (it.batch_filename.drop (groupFirst it it.current)).take
          (groupLast it it.current - groupFirst it it.current) ∧
      (it.move args).1.batch_weight =
        (it.batch_weight.drop (groupFirst it it.current)).take
          (groupLast it it.current - groupFirst it it.current) ∧
      (it.move args).2 = { it with current := it.current + 1 }) ∧
    (¬ it.current < it.update_after.length →
      (it.move args).1.batch_filename = [] ∧
      (it.move args).1.batch_weight = [] ∧
      (it.move args).2 = it) := by
  have hmove : it.current < it.update_after.length →
      it.move args =
        ({ args with
            batch_filename := (List.range' (groupFirst it it.current)
              (groupLast it it.current - groupFirst it it.current)).map
                (fun i => it.batch_filename.getD i "")
            batch_weight := (List.range' (groupFirst it it.current)
              (groupLast it it.current - groupFirst it it.current)).map
                (fun i => it.batch_weight.getD i 0) },
         { it with current := it.current + 1 }) := by
    intro h
    simp [OnlineIter.move, h, groupFirst, groupLast]
  refine ⟨by simp [OnlineIter.more], ?_, ?_⟩
  · intro hcur hbf hbw
    rw [hmove hcur]
    refine ⟨?_, ?_, rfl⟩
    · by_cases hle : groupFirst it it.current ≤ groupLast it it.current
      · exact range'_map_getD _ _ _ _ (by omega)
      · rw [Nat.sub_eq_zero_of_le (by omega)]
        simp
    · by_cases hle : groupFirst it it.current ≤ groupLast it it.current
      · exact range'_map_getD _ _ _ _ (by omega)
      · rw [Nat.sub_eq_zero_of_le (by omega)]
        simp
  · intro hcur
    simp [OnlineIter.move, hcur]

/-- C4 witness: the iterator of scenario S2 with the cursor at 1 emits
exactly batches `b3, b4` (indices `[2, 4)`) and advances the cursor to 2. -/
theorem onlineIterator_more_and_move_witness :
    (({ itW with current := 1 } : OnlineIter).move emptyPBArgs).1.batch_filename =
        ((({ itW with current := 1 } : OnlineIter)).batch_filename.drop
            (groupFirst { itW with current := 1 } 1)).take
          (groupLast { itW with current := 1 } 1 - groupFirst { itW with current := 1 } 1) ∧
    (({ itW with current := 1 } : OnlineIter).move emptyPBArgs).2 =
      { itW with current := 2 } := by
  have h := (onlineIterator_more_and_move { itW with current := 1 } emptyPBArgs).2.1
    (by decide) (by decide) (by decide)
  exact ⟨h.1, h.2.2⟩

/-! ## Claim C5: MergeModel error behaviour -/

/-- Once the merge target has been allocated, the source loop keeps it. -/
theorem mergeLoopStep_some (reg : Registry) (args : MergeModelArgs)
    (t : PhiM) (sw : String × ℚ) :
    ∃ t', mergeLoopStep reg args (some t) sw = some t' := by
  rw [← Option.isSome_iff_exists, mergeLoopStep]
  cases rget reg sw.1 with
  | none => rfl
  | some src => by_cases h : src.tokens.length > 0 <;> simp [h]

/-- The source fold from an allocated target never returns `none`. -/
theorem mergeFold_some (reg : Registry) (args : MergeModelArgs) :
    ∀ (l : List (String × ℚ)) (t : PhiM),
      ∃ t', l.foldl (mergeLoopStep reg args) (some t) = some t' := by
  intro l
  induction l with
  | nil => intro t; exact ⟨t, rfl⟩
  | cons p l ih =>
    intro t
    obtain ⟨t0, h0⟩ := mergeLoopStep_some reg args t p
    rw [List.foldl_cons, h0]
    exact ih t0

/-- The merge target stays unallocated iff every listed source is missing. -/
theorem mergeFold_none_iff (reg : Registry) (args : MergeModelArgs) :
    ∀ (l : List (String × ℚ)),
      l.foldl (mergeLoopStep reg args) none = none ↔ ∀ p ∈ l, rget reg p.1 = none := by
  intro l
  induction l with
  | nil => simp
  | cons p l ih =>
    rw [List.foldl_cons]
    cases hp : rget reg p.1 with
    | none =>
      rw [show mergeLoopStep reg args none p = none by simp [mergeLoopStep, hp]]
      simp [ih, hp]
    | some src =>
      have hsome : ∃ t, mergeLoopStep reg args none p = some t := by
        rw [← Option.isSome_iff_exists, mergeLoopStep, hp]
        by_cases h : src.tokens.length > 0 <;> simp [h]
      obtain ⟨t, ht⟩ := hsome
      rw [ht]
      obtain ⟨t', ht'⟩ := mergeFold_some reg args l t
      simp [ht', hp]

/-- When the lists align, the firsts of the zip are the source names. -/
theorem zip_fst_sources (a : List String) (b : List ℚ) (h : a.length = b.length) :
    (a.zip b).map Prod.fst = a :=
  List.map_fst_zip a b (le_of_eq h)

/-- C5: `MergeModel` raises `InvalidOperation` exactly when the source-name
and weight lists have different lengths or when none of the listed sources
exists in the registry (an empty source list included); otherwise missing
sources are skipped and the merged target is registered under the target
name. -/
theorem mergeModel_invalid_iff (args : MergeModelArgs) (reg : Registry) :
    ((∃ msg, mergeModel args reg = .error (.invalidOperation msg)) ↔
      (args.nwt_source_name.length ≠ args.source_weight.length ∨
        ∀ s ∈ args.nwt_source_name, rget reg s = none)) ∧
    (args.nwt_source_name.length = args.source_weight.length →
      (∃ s ∈ args.nwt_source_name, (rget reg s).isSome) →
      ∃ m, mergeModel args reg = .ok (rset reg args.nwt_target_name m)) := by
  have hmem : args.nwt_source_name.length = args.source_weight.length →
      ((∀ p ∈ args.nwt_source_name.zip args.source_weight, rget reg p.1 = none) ↔
        ∀ s ∈ args.nwt_source_name, rget reg s = none) := by
    intro hlen
    constructor
    · intro h s hs
      rw [← zip_fst_sources _ _ hlen] at hs
      obtain ⟨p, hp, rfl⟩ := List.mem_map.mp hs
      exact h p hp
    · intro h p hp
      exact h p.1 (by rw [← zip_fst_sources _ _ hlen]; exact List.mem_map_of_mem Prod.fst hp)
  constructor
  · by_cases h0 : args.nwt_source_name.length = 0
    · have hemp : args.nwt_source_name = [] := List.length_eq_zero.mp h0
      simp only [mergeModel, if_pos h0]
      constructor
      · intro _; right; intro s hs; rw [hemp] at hs; exact absurd hs (List.not_mem_nil s)
      · intro _; exact ⟨_, rfl⟩
    · by_cases hlen : args.nwt_source_name.length = args.source_weight.length
      · simp only [mergeModel, if_neg h0, if_neg (by omega : ¬ args.nwt_source_name.length ≠ args.source_weight.length)]
        cases hfold : (args.nwt_source_name.zip args.source_weight).foldl (mergeLoopStep reg args) none with
        | none =>
          have := (mergeFold_none_iff reg args _).mp hfold
          simp only [hfold]
          constructor
          · intro _; right; exact (hmem hlen).mp this
          · intro _; exact ⟨_, rfl⟩
        | some tgt =>
          simp only [hfold]
          constructor
          · rintro ⟨msg, hmsg⟩; exact absurd hmsg (by simp)
          · rintro (h | h)
            · omega
            · have : (args.nwt_source_name.zip args.source_weight).foldl
                  (mergeLoopStep reg args) none = none :=
                (mergeFold_none_iff reg args _).mpr ((hmem hlen).mpr h)
              rw [this] at hfold
              exact absurd hfold (by simp)
      · simp only [mergeModel, if_neg h0, if_pos (by omega : args.nwt_source_name.length ≠ args.source_weight.length)]
        constructor
        · intro _; left; omega
        · intro _; exact ⟨_, rfl⟩
  · intro hlen hsome
    by_cases h0 : args.nwt_source_name.length = 0
    · obtain ⟨s, hs, _⟩ := hsome
      rw [List.length_eq_zero.mp h0] at hs
      exact absurd hs (List.not_mem_nil s)
    · cases hfold : (args.nwt_source_name.zip args.source_weight).foldl (mergeLoopStep reg args) none with
      | none =>
        obtain ⟨s, hs, hv⟩ := hsome
        have := (hmem hlen).mp ((mergeFold_none_iff reg args _).mp hfold) s hs
        rw [this] at hv
        exact absurd hv (by simp)
      | some tgt =>
        refine ⟨tgt, ?_⟩
        simp only [mergeModel, if_neg h0,
          if_neg (by omega : ¬ args.nwt_source_name.length ≠ args.source_weight.length), hfold]

/-- C5 witness: on `regW`, the request `argsMergeW` (one present source, one
missing, aligned weights) registers a merged target under `"tgt"`. -/
theorem mergeModel_invalid_iff_witness :
    (¬ ((["pwt", "missing"] : List String).length ≠ ([1, 2] : List ℚ).length) ∧
      ¬ (∀ s ∈ argsMergeW.nwt_source_name, rget regW s = none)) ∧
    ∃ m, mergeModel argsMergeW regW = .ok (rset regW argsMergeW.nwt_target_name m) :=
  ⟨⟨by decide, by decide⟩,
    (mergeModel_invalid_iff argsMergeW regW).2 (by decide) (by decide)⟩

/-! ## Claim C6: ImportModel error behaviour -/

/-- A stream containing any bad chunk makes the replay loop raise
`CorruptedMessage`. -/
theorem importLoop_bad (modelName fileName : String) :
    ∀ (cs : List ImportChunk) (tgt : Option PhiM),
      (∃ c ∈ cs, c.chunkLength ≤ 0 ∨ c.parsed = none) →
      importLoop modelName fileName cs tgt =
        .error (.corruptedMessage ("Unable to read from " ++ fileName)) := by
  intro cs
  induction cs with
  | nil => intro tgt h; simp at h
  | cons c cs ih =>
    intro tgt h
    by_cases hlen : c.chunkLength ≤ 0
    · simp [importLoop, hlen]
    · cases hp : c.parsed with
      | none => simp [importLoop, hlen, hp]
      | some tm =>
        have : ∃ c' ∈ cs, c'.chunkLength ≤ 0 ∨ c'.parsed = none := by
          obtain ⟨c', hc', hbad⟩ := h
          rcases List.mem_cons.mp hc' with rfl | hmem
          · rcases hbad with hbad | hbad
            · exact absurd hbad hlen
            · rw [hp] at hbad; exact absurd hbad (by simp)
          · exact ⟨c', hmem, hbad⟩
        simp only [importLoop, if_neg hlen, hp]
        exact ih _ this

/-- A stream of good chunks replays to an allocated target. -/
theorem importLoop_good (modelName fileName : String) :
    ∀ (cs : List ImportChunk) (t : PhiM),
      (∀ c ∈ cs, 0 < c.chunkLength ∧ c.parsed ≠ none) →
      ∃ t', importLoop modelName fileName cs (some t) = .ok (some t') := by
  intro cs
  induction cs with
  | nil => intro t _; exact ⟨t, rfl⟩
  | cons c cs ih =>
    intro t h
    obtain ⟨hlen, hp⟩ := h c (List.mem_cons_self c cs)
    cases hpc : c.parsed with
    | none => exact absurd hpc hp
    | some tm =>
      simp only [importLoop, if_neg (by omega : ¬ c.chunkLength ≤ 0), hpc]
      exact ih _ (fun c' hc' => h c' (List.mem_cons_of_mem c hc'))

/-- C6: on a truncated or malformed stream — a non-positive chunk length, an
unparsable chunk, or no chunks at all — `ImportModel` raises
`CorruptedMessage` and leaves the registry unchanged; the target is
registered only after every chunk has been read and applied successfully. -/
theorem importModel_corrupted (chunks : List ImportChunk)
    (modelName fileName : String) (reg : Registry) :
    ((chunks = [] ∨ ∃ c ∈ chunks, c.chunkLength ≤ 0 ∨ c.parsed = none) →
      importModel 0 chunks modelName fileName reg =
        (reg, some (.corruptedMessage ("Unable to read from " ++ fileName)))) ∧
    ((chunks ≠ [] ∧ ∀ c ∈ chunks, 0 < c.chunkLength ∧ c.parsed ≠ none) →
      ∃ tgt, importModel 0 chunks modelName fileName reg =
        (rset reg modelName tgt, none)) := by
  constructor
  · rintro (rfl | hbad)
    · simp [importModel, importLoop]
    · rw [importModel, if_neg (by omega), importLoop_bad modelName fileName chunks none hbad]
  · rintro ⟨hne, hgood⟩
    cases chunks with
    | nil => exact absurd rfl hne
    | cons c cs =>
      obtain ⟨hlen, hp⟩ := hgood c (List.mem_cons_self c cs)
      cases hpc : c.parsed with
      | none => exact absurd hpc hp
      | some tm =>
        obtain ⟨t', ht'⟩ := importLoop_good modelName fileName cs
          (applyTopicModelOperation tm.tokens 1
            { name := modelName, topic_name := tm.topic_name, tokens := [] })
          (fun c' hc' => hgood c' (List.mem_cons_of_mem c hc'))
        refine ⟨t', ?_⟩
        rw [importModel, if_neg (by omega)]
        simp only [importLoop, if_neg (by omega : ¬ c.chunkLength ≤ 0), hpc]
        rw [ht']

/-- C6 witness: a single zero-length chunk raises `CorruptedMessage` and
leaves `regW` unchanged. -/
theorem importModel_corrupted_witness :
    ([badChunkW] = [] ∨ ∃ c ∈ [badChunkW], c.chunkLength ≤ 0 ∨ c.parsed = none) ∧
    importModel 0 [badChunkW] "m" "f" regW =
      (regW, some (.corruptedMessage ("Unable to read from " ++ "f"))) :=
  ⟨Or.inr ⟨badChunkW, by decide⟩,
    (importModel_corrupted [badChunkW] "m" "f" regW).1 (Or.inr ⟨badChunkW, by decide⟩)⟩

/-! ## Claims C2, C8, C9, C10: RequestProcessBatchesImpl -/

/-- If the polling loop returned, the batch manager was empty. -/
theorem awaitDrain_empty :
    ∀ (sched out rest : List ℕ), awaitDrain out sched = some rest → rest = [] := by
  intro sched
  induction sched with
  | nil =>
    intro out rest h
    rw [awaitDrain] at h
    by_cases he : out.isEmpty
    · rw [if_pos he] at h
      cases h
      exact List.isEmpty_iff.mp he
    · rw [if_neg he] at h
      exact absurd h (by simp)
  | cons r rs ih =>
    intro out rest h
    rw [awaitDrain] at h
    by_cases he : out.isEmpty
    · rw [if_pos he] at h
      cases h
      exact List.isEmpty_iff.mp he
    · rw [if_neg he] at h
      exact ih _ _ h

/-- If the polling loop returned, every outstanding task id was removed by
some scheduled worker completion. -/
theorem awaitDrain_mem :
    ∀ (sched out rest : List ℕ), awaitDrain out sched = some rest →
      ∀ x ∈ out, x ∈ sched := by
  intro sched
  induction sched with
  | nil =>
    intro out rest h x hx
    rw [awaitDrain] at h
    by_cases he : out.isEmpty
    · rw [List.isEmpty_iff.mp he] at hx
      exact absurd hx (List.not_mem_nil x)
    · rw [if_neg he] at h
      exact absurd h (by simp)
  | cons r rs ih =>
    intro out rest h x hx
    rw [awaitDrain] at h
    by_cases he : out.isEmpty
    · rw [List.isEmpty_iff.mp he] at hx
      exact absurd hx (List.not_mem_nil x)
    · rw [if_neg he] at h
      by_cases hxr : x = r
      · exact hxr ▸ List.mem_cons_self r rs
      · exact List.mem_cons_of_mem r (ih _ _ h x ((List.mem_erase_of_ne hxr).mpr hx))

/-- C2: a synchronous (`async = false`) `RequestProcessBatchesImpl` call that
returns has drained its batch manager: at the moment of return no enqueued
task id is outstanding (`is_everything_processed()` holds), and every
enqueued task id was removed by a worker completion from the schedule. -/
theorem processBatches_sync_drains (args : ProcessBatchesArgs) (ps : ℕ)
    (sched : List ℕ) (reg reg' : Registry) (r : PBReturn)
    (h : requestProcessBatchesImpl args false ps sched reg = (reg', .ok r)) :
    r.outstanding = [] ∧ ∀ id ∈ r.enqueued, id ∈ sched := by
  rw [requestProcessBatchesImpl] at h
  by_cases hps : ps = 0
  · rw [if_pos hps] at h
    exact absurd (congrArg Prod.snd h) (by simp)
  · rw [if_neg hps] at h
    cases hget : rget reg args.pwt_source_name with
    | none =>
      rw [hget] at h
      exact absurd (congrArg Prod.snd h) (by simp)
    | some p_wt =>
      rw [hget] at h
      simp only at h
      cases hnwt : args.nwt_target_name with
      | none =>
        rw [hnwt] at h
        simp only [if_neg (by simp : ¬ (false = true ∧ args.theta_matrix_type ≠ ThetaMatrixType.none_)),
          if_neg (by simp : ¬ (false = true))] at h
        cases hdr : awaitDrain (List.range (args.batch_filename.length + args.batch.length)) sched with
        | none =>
          rw [hdr] at h
          exact absurd (congrArg Prod.snd h) (by simp)
        | some rest =>
          rw [hdr] at h
          have hr : r = ⟨[] ++ (List.range (args.batch_filename.length + args.batch.length)).map PBEvent.enqueue,
              List.range (args.batch_filename.length + args.batch.length), rest⟩ := by
            have := congrArg Prod.snd h
            simp only at this
            cases this
            rfl
          subst hr
          exact ⟨awaitDrain_empty sched _ rest hdr, fun id hid => awaitDrain_mem sched _ rest hdr id hid⟩
      | some tn =>
        rw [hnwt] at h
        simp only at h
        by_cases htn : tn = args.pwt_source_name
        · rw [if_pos htn] at h
          exact absurd (congrArg Prod.snd h) (by simp)
        · rw [if_neg htn] at h
          simp only [if_neg (by simp : ¬ (false = true ∧ args.theta_matrix_type ≠ ThetaMatrixType.none_)),
            if_neg (by simp : ¬ (false = true))] at h
          cases hdr : awaitDrain (List.range (args.batch_filename.length + args.batch.length)) sched with
          | none =>
            rw [hdr] at h
            exact absurd (congrArg Prod.snd h) (by simp)
          | some rest =>
            rw [hdr] at h
            have hr : r = ⟨[PBEvent.setPhi tn] ++ (List.range (args.batch_filename.length + args.batch.length)).map PBEvent.enqueue,
                List.range (args.batch_filename.length + args.batch.length), rest⟩ := by
              have := congrArg Prod.snd h
              simp only at this
              cases this
              rfl
            subst hr
            exact ⟨awaitDrain_empty sched _ rest hdr, fun id hid => awaitDrain_mem sched _ rest hdr id hid⟩

/-- C8: with workers available and the source Φ present, `ProcessBatches`
with `nwt_target` equal to `pwt_source` raises `InvalidOperation`; with a
distinct `nwt_target`, a fresh N matrix reshaped from the source Φ is
installed in the registry under the target name, and in the event trace the
install precedes every task enqueue. -/
theorem processBatches_nwt_target (args : ProcessBatchesArgs) (async : Bool) (ps : ℕ)
    (sched : List ℕ) (reg : Registry) (p : PhiM)
    (hps : ps ≠ 0) (hp : rget reg args.pwt_source_name = some p) :
    (args.nwt_target_name = some args.pwt_source_name →
      requestProcessBatchesImpl args async ps sched reg =
        (reg, .err (.invalidOperation
          "ProcessBatchesArgs.pwt_source_name == ProcessBatchesArgs.nwt_target_name"))) ∧
    (∀ tn, args.nwt_target_name = some tn → tn ≠ args.pwt_source_name →
      (requestProcessBatchesImpl args async ps sched reg).1 = rset reg tn (reshapeFrom tn p) ∧
      ∀ r, (requestProcessBatchesImpl args async ps sched reg).2 = .ok r →
        r.trace = .setPhi tn :: r.enqueued.map PBEvent.enqueue) := by
  constructor
  · intro htn
    rw [requestProcessBatchesImpl, if_neg hps, hp]
    simp [htn]
  · intro tn htn hne
    rw [requestProcessBatchesImpl, if_neg hps, hp]
    simp only [htn]
    rw [if_neg hne]
    simp only
    by_cases hth : async = true ∧ args.theta_matrix_type ≠ ThetaMatrixType.none_
    · rw [if_pos hth]
      exact ⟨rfl, fun r hr => absurd hr (by simp)⟩
    · rw [if_neg hth]
      by_cases ha : async
      · rw [if_pos ha]
        refine ⟨rfl, fun r hr => ?_⟩
        simp only [PBOutcome.ok.injEq] at hr
        rw [← hr]
        rfl
      · rw [if_neg ha]
        cases hdr : awaitDrain (List.range (args.batch_filename.length + args.batch.length)) sched with
        | none => exact ⟨rfl, fun r hr => absurd hr (by simp)⟩
        | some rest =>
          refine ⟨rfl, fun r hr => ?_⟩
          simp only [PBOutcome.ok.injEq] at hr
          rw [← hr]
          rfl

/-- C9: with the earlier validations passed, an async `ProcessBatches` with
any `theta_matrix_type` other than `None` raises `InvalidOperation`; with
`theta_matrix_type = None` it returns right after enqueuing all tasks —
every enqueued task id is still outstanding at return, and the outcome never
consults the worker schedule. -/
theorem processBatches_async_requires_none (args : ProcessBatchesArgs) (ps : ℕ)
    (sched : List ℕ) (reg : Registry) (p : PhiM)
    (hps : ps ≠ 0) (hp : rget reg args.pwt_source_name = some p)
    (hnwt : ∀ tn, args.nwt_target_name = some tn → tn ≠ args.pwt_source_name) :
    (args.theta_matrix_type ≠ ThetaMatrixType.none_ →
      (requestProcessBatchesImpl args true ps sched reg).2 =
        .err (.invalidOperation
          "ArtmAsyncProcessBatches require ProcessBatchesArgs.theta_matrix_type to be set to None")) ∧
    (args.theta_matrix_type = ThetaMatrixType.none_ →
      ∃ r, (requestProcessBatchesImpl args true ps sched reg).2 = .ok r ∧
        r.enqueued = List.range (args.batch_filename.length + args.batch.length) ∧
        r.outstanding = r.enqueued) ∧
    requestProcessBatchesImpl args true ps sched reg =
      requestProcessBatchesImpl args true ps [] reg := by
  cases hnt : args.nwt_target_name with
  | none =>
    refine ⟨?_, ?_, ?_⟩
    · intro hth
      rw [requestProcessBatchesImpl, if_neg hps, hp]
      simp [hnt, hth]
    · intro hth
      rw [requestProcessBatchesImpl, if_neg hps, hp]
      simp [hnt, hth]
    · rw [requestProcessBatchesImpl, if_neg hps, hp,
        requestProcessBatchesImpl, if_neg hps, hp]
      simp [hnt]
  | some tn =>
    have hne := hnwt tn hnt
    refine ⟨?_, ?_, ?_⟩
    · intro hth
      rw [requestProcessBatchesImpl, if_neg hps, hp]
      simp only [hnt]
      rw [if_neg hne]
      simp [hth]
    · intro hth
      rw [requestProcessBatchesImpl, if_neg hps, hp]
      simp only [hnt]
      rw [if_neg hne]
      simp [hth]
    · rw [requestProcessBatchesImpl, if_neg hps, hp,
        requestProcessBatchesImpl, if_neg hps, hp]
      simp only [hnt]
      rw [if_neg hne]
      by_cases hth : args.theta_matrix_type ≠ ThetaMatrixType.none_ <;> simp [hth]

/-- C10: with workers available, the source present, a distinct `nwt_target`
set, `async = true` and a non-`None` `theta_matrix_type`, the call raises
`InvalidOperation`, but the registry entry under the target name has already
been replaced by the fresh reshaped N matrix: the validation error is not
atomic. -/
theorem processBatches_async_error_mutates (args : ProcessBatchesArgs) (ps : ℕ)
    (sched : List ℕ) (reg : Registry) (p : PhiM) (tn : String)
    (hps : ps ≠ 0) (hp : rget reg args.pwt_source_name = some p)
    (htn : args.nwt_target_name = some tn) (hne : tn ≠ args.pwt_source_name)
    (hth : args.theta_matrix_type ≠ ThetaMatrixType.none_) :
    requestProcessBatchesImpl args true ps sched reg =
      (rset reg tn (reshapeFrom tn p),
       .err (.invalidOperation
         "ArtmAsyncProcessBatches require ProcessBatchesArgs.theta_matrix_type to be set to None")) := by
  rw [requestProcessBatchesImpl, if_neg hps, hp]
  simp only [htn]
  rw [if_neg hne]
  simp [hth]

/-- C2 witness: a two-batch synchronous call under the schedule `[0, 1]`
returns with an empty batch manager and both task ids removed. -/
theorem processBatches_sync_drains_witness :
    pbRetW.outstanding = [] ∧ ∀ id ∈ pbRetW.enqueued, id ∈ [0, 1] :=
  processBatches_sync_drains argsW 1 [0, 1] regW
    (rset regW "nwt" (reshapeFrom "nwt" phiW)) pbRetW (by decide)

/-- C8 witness: the witness call installs the reshaped N matrix under
`"nwt"`, and the trace puts the install before both enqueues. -/
theorem processBatches_nwt_target_witness :
    (requestProcessBatchesImpl argsW false 1 [0, 1] regW).1 =
      rset regW "nwt" (reshapeFrom "nwt" phiW) ∧
    pbRetW.trace = .setPhi "nwt" :: pbRetW.enqueued.map PBEvent.enqueue := by
  have h := (processBatches_nwt_target argsW false 1 [0, 1] regW phiW
    (by decide) (by decide)).2 "nwt" (by decide) (by decide)
  exact ⟨h.1, h.2 pbRetW (by decide)⟩

/-- C9 witness: the async witness call with `theta_matrix_type = None`
returns with both enqueued task ids still outstanding. -/
theorem processBatches_async_requires_none_witness :
    ∃ r, (requestProcessBatchesImpl argsW true 1 [] regW).2 = .ok r ∧
      r.enqueued = List.range (argsW.batch_filename.length + argsW.batch.length) ∧
      r.outstanding = r.enqueued :=
  ((processBatches_async_requires_none argsW 1 [] regW phiW (by decide) (by decide)
      (fun tn h => by simp [argsW] at h; subst h; decide)).2.1) (by decide)

/-- C10 witness: the async witness call with a dense Θ request errors after
having already replaced the `"nwt"` registry slot. -/
theorem processBatches_async_error_mutates_witness :
    requestProcessBatchesImpl argsW10 true 1 [] regW =
      (rset regW "nwt" (reshapeFrom "nwt" phiW),
       .err (.invalidOperation
         "ArtmAsyncProcessBatches require ProcessBatchesArgs.theta_matrix_type to be set to None")) :=
  processBatches_async_error_mutates argsW10 1 [] regW phiW "nwt"
    (by decide) (by decide) (by decide) (by decide) (by decide)

/-! ## Claim C1: the async-online schedule reads weights at the op index -/

/-- An in-range `move` emits the cursor's group and advances the cursor. -/
theorem move_eq_group (it : OnlineIter) (a : ProcessBatchesArgs)
    (h : it.current < it.update_after.length) :
    it.move a =
      ({ a with
          batch_filename := groupBatches it it.current
          batch_weight := (List.range' (groupFirst it it.current)
            (groupLast it it.current - groupFirst it it.current)).map
              (fun i => it.batch_weight.getD i 0) },
       { it with current := it.current + 1 }) := by
  simp [OnlineIter.move, h, groupBatches, groupFirst, groupLast]

/-- Closed form of the async pipeline loop: entering the iteration that will
merge op `k` (cursor at `k + 1`, `m` further groups pending), the loop emits
one `nonLastBlock` per remaining non-final op and one final `lastBlock`. -/
theorem asyncLoop_spec (pwtName nwtName : String) (it0 : OnlineIter) :
    ∀ (m k : ℕ), k + 1 + m = it0.update_after.length →
      asyncLoop pwtName nwtName (m + 1) { it0 with current := k + 1 }
          (activeName pwtName k) k k k (k + 1) =
        ((List.range' k m).map (nonLastBlock pwtName nwtName it0)).flatten ++
          lastBlock pwtName nwtName it0 (k + m) := by
  intro m
  induction m with
  | zero =>
    intro k hk
    have hmore : ¬ (({ it0 with current := k + 1 } : OnlineIter).more = true) := by
      simp [OnlineIter.more]
      omega
    rw [asyncLoop, if_neg hmore]
    simp [lastBlock]
  | succ m ih =>
    intro k hk
    have hmore : ({ it0 with current := k + 1 } : OnlineIter).more = true := by
      simp only [OnlineIter.more]
      simp
      omega
    have hcur : ({ it0 with current := k + 1 } : OnlineIter).current <
        ({ it0 with current := k + 1 } : OnlineIter).update_after.length := by
      simp
      omega
    rw [asyncLoop, if_pos hmore, move_eq_group _ _ hcur]
    have hre := ih (k + 1) (by omega)
    have hact : pwtIdxName (k + 1 + 1) = activeName pwtName (k + 1) := by
      rw [activeName, if_neg (by omega)]
    simp only
    rw [List.range'_succ, List.map_cons, List.flatten_cons]
    simp only [nonLastBlock, hact]
    rw [show k + (m + 1) = k + 1 + m by omega, List.append_assoc, ← hre]
    rfl

/-- Closed form of the whole async-online trace. -/
theorem executeAsync_spec (pwtName nwtName : String) (it : OnlineIter)
    (h0 : it.current = 0) (hn : 0 < it.update_after.length) :
    executeAsyncOnlineAlgorithm pwtName nwtName it =
      .clearScoreCache ::
      .asyncProcess 0 pwtName (nwtHatName 0) (groupBatches it 0) ::
      (((List.range' 0 (it.update_after.length - 1)).map
          (nonLastBlock pwtName nwtName it)).flatten ++
        lastBlock pwtName nwtName it (0 + (it.update_after.length - 1))) := by
  have hspec := asyncLoop_spec pwtName nwtName it (it.update_after.length - 1) 0 (by omega)
  rw [show it.update_after.length - 1 + 1 = it.update_after.length from by omega] at hspec
  rw [show activeName pwtName 0 = pwtName from rfl] at hspec
  rw [executeAsyncOnlineAlgorithm, move_eq_group _ _ (by omega), h0]
  exact congrArg (fun l => Event.clearScoreCache ::
    Event.asyncProcess 0 pwtName (nwtHatName 0) (groupBatches it 0) :: l) hspec

/-- The merge events of the pipelined blocks, op by op. -/
theorem filter_merge_blocks (pwtName nwtName : String) (it : OnlineIter) :
    ∀ (m k : ℕ),
      (((List.range' k m).map (nonLastBlock pwtName nwtName it)).flatten).filter
          isMergeEvent =
        (List.range' k m).map (fun j =>
          Event.merge nwtName [nwtName, nwtHatName j]
            [it.decay_weight.getD j 0, it.apply_weight.getD j 0]) := by
  intro m
  induction m with
  | zero => intro k; simp
  | succ m ih =>
    intro k
    rw [List.range'_succ, List.map_cons, List.flatten_cons, List.filter_append, ih,
      List.map_cons]
    simp [nonLastBlock, isMergeEvent]

/-- The async launch events of the pipelined blocks, op by op. -/
theorem filter_async_blocks (pwtName nwtName : String) (it : OnlineIter) :
    ∀ (m k : ℕ),
      (((List.range' k m).map (nonLastBlock pwtName nwtName it)).flatten).filter
          isAsyncProcessEvent =
        (List.range' k m).map (fun j =>
          Event.asyncProcess (j + 1) (activeName pwtName j) (nwtHatName (j + 1))
            (groupBatches it (j + 1))) := by
  intro m
  induction m with
  | zero => intro k; simp
  | succ m ih =>
    intro k
    rw [List.range'_succ, List.map_cons, List.flatten_cons, List.filter_append, ih,
      List.map_cons]
    simp [nonLastBlock, isAsyncProcessEvent]

/-- The source name fed to op `j + 1` is the `pwt_active` of the iteration
that launches it. -/
theorem asyncSrcName_succ (pwtName : String) (j : ℕ) :
    asyncSrcName pwtName (j + 1) = activeName pwtName j := by
  by_cases hj : j = 0
  · subst hj; rfl
  · rw [asyncSrcName, activeName, if_neg hj, if_neg (by omega)]

/-- Shifting the start of a `range'` map. -/
theorem range'_map_succ {α : Type} (f : ℕ → α) :
    ∀ (m k : ℕ), (List.range' k m).map (fun j => f (j + 1)) = (List.range' (k + 1) m).map f := by
  intro m
  induction m with
  | zero => intro k; simp
  | succ m ih =>
    intro k
    rw [List.range'_succ, List.range'_succ, List.map_cons, List.map_cons, ih]

/-- Splitting the last element off a `range'`. -/
theorem range'_concat_one : ∀ (n k : ℕ), List.range' k (n + 1) = List.range' k n ++ [k + n] := by
  intro n
  induction n with
  | zero => intro k; simp
  | succ n ih =>
    intro k
    rw [List.range'_succ, ih (k + 1), List.range'_succ]
    simp only [List.cons_append]
    rw [show k + 1 + n = k + (n + 1) by omega]

/-- C1: in `ExecuteAsyncOnlineAlgorithm` the Merge of operation `K` uses the
`(apply_weight, decay_weight)` pair read from the online iterator at index
`K` — the operation index, not the iterator's cursor position — and op id
`K` processes exactly update group `K` (op id 0 = group 0). -/
theorem asyncOnline_merge_uses_op_index (pwtName nwtName : String) (it : OnlineIter)
    (h0 : it.current = 0) (hn : 0 < it.update_after.length) :
    (executeAsyncOnlineAlgorithm pwtName nwtName it).filter isMergeEvent =
      (List.range it.update_after.length).map (fun k =>
        Event.merge nwtName [nwtName, nwtHatName k]
          [it.decay_weight.getD k 0, it.apply_weight.getD k 0]) ∧
    (executeAsyncOnlineAlgorithm pwtName nwtName it).filter isAsyncProcessEvent =
      (List.range it.update_after.length).map (fun k =>
        Event.asyncProcess k (asyncSrcName pwtName k) (nwtHatName k) (groupBatches it k)) := by
  obtain ⟨n', hn'⟩ : ∃ n', it.update_after.length = n' + 1 :=
    ⟨it.update_after.length - 1, by omega⟩
  rw [executeAsync_spec pwtName nwtName it h0 hn, List.range_eq_range', hn']
  simp only [Nat.add_sub_cancel, Nat.zero_add]
  constructor
  · simp only [List.filter_cons, List.filter_append]
    rw [filter_merge_blocks, range'_concat_one, List.map_append, List.map_singleton]
    simp [isMergeEvent, lastBlock]
  · simp only [List.filter_cons, List.filter_append]
    rw [filter_async_blocks]
    have hsh := range'_map_succ (fun k =>
      Event.asyncProcess k (asyncSrcName pwtName k) (nwtHatName k) (groupBatches it k)) n' 0
    simp only [Nat.zero_add] at hsh
    simp only [← asyncSrcName_succ]
    rw [hsh, List.range'_succ, List.map_cons]
    simp [isAsyncProcessEvent, lastBlock, asyncSrcName]

/-- C1 witness: scenario S2 — two online groups; the merges of ops 0 and 1
use `(decay, apply) = (1/2, 1/2)` and `(1, 1/2)` respectively, and ops 0 and
1 process groups `[b1, b2]` and `[b3, b4]`. -/
theorem asyncOnline_merge_uses_op_index_witness :
    (executeAsyncOnlineAlgorithm "pwt" "nwt" itW).filter isMergeEvent =
      (List.range itW.update_after.length).map (fun k =>
        Event.merge "nwt" ["nwt", nwtHatName k]
          [itW.decay_weight.getD k 0, itW.apply_weight.getD k 0]) ∧
    (executeAsyncOnlineAlgorithm "pwt" "nwt" itW).filter isAsyncProcessEvent =
      (List.range itW.update_after.length).map (fun k =>
        Event.asyncProcess k (asyncSrcName "pwt" k) (nwtHatName k) (groupBatches itW k)) :=
  asyncOnline_merge_uses_op_index "pwt" "nwt" itW (by decide) (by decide)

end Artm
